import Mathlib

/-!
# Verification of the pdf_filer classification-and-filing pipeline

Shallow embedding of the core modules of the Auto-Document-Storage repository
(`src/pdf_filer/`): text utilities (`utils.py`), sender mapping (`mapping.py`),
naming (`naming.py`), label normalization (`llm.py`), the two-stage classifier
(`classifier.py`) and the per-document routing logic of `process_one`
(`main.py`).

Python strings are modelled as `List Char`; the regular expressions used by the
source are all of the simple forms "character class substitution" and
"collapse a run of a character class", which are embedded as recursive
functions.  Python floats carrying confidence values and thresholds are
modelled as rationals (only order comparisons on them occur in the embedded
code).  Fallible collaborators (the Ollama HTTP client, the OCR engine, the
filesystem) are modelled as `Except`/function-valued parameters.
-/

namespace PdfFiler

/-- ASCII whitespace as matched by Python's `str.strip()`, `str.split()` and
the regex class `\s` (restricted to the ASCII range, which is all that the
embedded claims exercise). -/
def pyIsSpace (c : Char) : Bool :=
  c = ' ' || c = '\t' || c = '\n' || c = '\r' || c = '\x0b' || c = '\x0c'

/-- ASCII decimal digits, the characters matched by the regex `\d` that the
source uses to reject labels containing digits. -/
def pyIsDigit (c : Char) : Bool :=
  '0' ≤ c && c ≤ '9'

/-- Python `str.lstrip` restricted to a character predicate. -/
def pyLStrip (p : Char → Bool) : List Char → List Char
  | [] => []
  | c :: cs => if p c then pyLStrip p cs else c :: cs

/-- Python `str.rstrip` restricted to a character predicate. -/
def pyRStrip (p : Char → Bool) : List Char → List Char
  | [] => []
  | c :: cs =>
    match pyRStrip p cs with
    | [] => if p c then [] else [c]
    | r => c :: r

/-- Python `str.strip` restricted to a character predicate. -/
def pyStrip (p : Char → Bool) (l : List Char) : List Char :=
  pyRStrip p (pyLStrip p l)

/-- Helper for `pySplit`: accumulates the current (reversed) word. -/
def pySplitAux (acc : List Char) : List Char → List (List Char)
  | [] => if acc = [] then [] else [acc.reverse]
  | c :: cs =>
    if pyIsSpace c then
      if acc = [] then pySplitAux [] cs else acc.reverse :: pySplitAux [] cs
    else pySplitAux (c :: acc) cs

/-- Python `str.split()` with no argument: split on runs of whitespace,
discarding empty pieces. -/
def pySplit (l : List Char) : List (List Char) :=
  pySplitAux [] l

/-- Python `" ".join(ws)`. -/
def joinSpace : List (List Char) → List Char
  | [] => []
  | [w] => w
  | w :: ws => w ++ ' ' :: joinSpace ws

/-- `mapping.normalize_sender`: `" ".join((s or "").strip().split())` —
collapse internal whitespace runs to single spaces and strip the ends. -/
def normalize_sender (s : List Char) : List Char :=
  joinSpace (pySplit s)

/-- `SenderMapper.canonicalize`: normalize whitespace, look the result up in
the synonym table (exact match, modelled as an association list standing for
the Python dict), fall back to the normalized input, and normalize the
result again. -/
def canonicalize (synonyms : List (List Char × List Char)) (sender : List Char) :
    List Char :=
  let sender_n := normalize_sender sender
  normalize_sender ((synonyms.lookup sender_n).getD sender_n)

/-- `SenderMapper.folder_for`: normalize, then exact lookup in the folder
table; `none` models Python's `None` ("no mapping"). -/
def folder_for (folders : List (List Char × List Char)) (sender_canonical : List Char) :
    Option (List Char) :=
  folders.lookup (normalize_sender sender_canonical)

/-! ## Lemmas about splitting and joining -/

theorem pySplitAux_sound (l : List Char) :
    ∀ acc, (∀ c ∈ acc, pyIsSpace c = false) →
      ∀ w ∈ pySplitAux acc l, w ≠ [] ∧ ∀ c ∈ w, pyIsSpace c = false := by
  induction l with
  | nil =>
    intro acc hacc w hw
    simp only [pySplitAux] at hw
    by_cases h : acc = []
    · simp [h] at hw
    · simp [h] at hw
      subst hw
      refine ⟨by simpa using h, ?_⟩
      intro c hc
      exact hacc c (by simpa using hc)
  | cons c cs ih =>
    intro acc hacc w hw
    simp only [pySplitAux] at hw
    by_cases hsp : pyIsSpace c
    · simp only [hsp, if_true] at hw
      by_cases h : acc = []
      · simp only [h, if_true] at hw
        exact ih [] (by simp) w hw
      · simp only [h, if_false] at hw
        rcases List.mem_cons.mp hw with rfl | hw'
        · refine ⟨by simpa using h, ?_⟩
          intro x hx
          exact hacc x (by simpa using hx)
        · exact ih [] (by simp) w hw'
    · simp only [hsp] at hw
      simp only [Bool.false_eq_true, if_false] at hw
      refine ih (c :: acc) ?_ w hw
      intro x hx
      rcases List.mem_cons.mp hx with rfl | hx'
      · simpa using hsp
      · exact hacc x hx'

theorem pySplitAux_append_word (w : List Char) (hw : ∀ c ∈ w, pyIsSpace c = false) :
    ∀ acc t, pySplitAux acc (w ++ t) = pySplitAux (w.reverse ++ acc) t := by
  induction w with
  | nil => intro acc t; simp
  | cons c cs ih =>
    intro acc t
    have hc : pyIsSpace c = false := hw c (by simp)
    have hcs : ∀ x ∈ cs, pyIsSpace x = false := fun x hx => hw x (by simp [hx])
    simp only [List.cons_append, pySplitAux, hc, Bool.false_eq_true, if_false]
    rw [show cs.append t = cs ++ t from rfl, ih hcs (c :: acc) t]
    simp

/-- Splitting the space-joined image of a list of nonempty space-free words
recovers the words: the round trip underlying idempotence of
`normalize_sender`. -/
theorem pySplit_joinSpace (ws : List (List Char))
    (h : ∀ w ∈ ws, w ≠ [] ∧ ∀ c ∈ w, pyIsSpace c = false) :
    pySplit (joinSpace ws) = ws := by
  induction ws with
  | nil => simp [pySplit, joinSpace, pySplitAux]
  | cons w ws ih =>
    have hw := h w (by simp)
    have hws : ∀ w' ∈ ws, w' ≠ [] ∧ ∀ c ∈ w', pyIsSpace c = false :=
      fun w' hw' => h w' (by simp [hw'])
    cases ws with
    | nil =>
      show pySplit (joinSpace [w]) = [w]
      have : joinSpace [w] = w := rfl
      rw [this]
      unfold pySplit
      have := pySplitAux_append_word w hw.2 [] []
      simpa [pySplitAux, hw.1] using this
    | cons w' ws' =>
      show pySplitAux [] (w ++ ' ' :: joinSpace (w' :: ws')) = w :: w' :: ws'
      rw [pySplitAux_append_word w hw.2 [] (' ' :: joinSpace (w' :: ws'))]
      have hsp : pyIsSpace ' ' = true := by decide
      have hwne : w.reverse ++ [] ≠ [] := by simpa using hw.1
      simp only [pySplitAux, hsp, if_true, List.append_nil]
      rw [if_neg (by simpa using hw.1)]
      have := ih hws
      unfold pySplit at this
      simp [this]

/-- `normalize_sender` is idempotent. -/
theorem normalize_sender_idem (s : List Char) :
    normalize_sender (normalize_sender s) = normalize_sender s := by
  unfold normalize_sender
  rw [pySplit_joinSpace (pySplit s) (pySplitAux_sound s [] (by simp))]

/-- **C10** — `SenderMapper.canonicalize` is insensitive to surrounding and
repeated internal whitespace (`canonicalize (normalize_sender s) =
canonicalize s`), and its output is itself whitespace-normalized
(`normalize_sender (canonicalize s) = canonicalize s`), for every synonym
table and input string. -/
theorem canonicalize_whitespace_insensitive
    (synonyms : List (List Char × List Char)) (s : List Char) :
    canonicalize synonyms (normalize_sender s) = canonicalize synonyms s ∧
      normalize_sender (canonicalize synonyms s) = canonicalize synonyms s := by
  constructor
  · unfold canonicalize
    rw [normalize_sender_idem]
  · unfold canonicalize
    rw [normalize_sender_idem]

/-! ## Strip and collapse lemmas -/

theorem pyLStrip_eq_drop (p : Char → Bool) (l : List Char) :
    ∃ n, pyLStrip p l = l.drop n := by
  induction l with
  | nil => exact ⟨0, rfl⟩
  | cons a l ih =>
    by_cases hp : p a = true
    · obtain ⟨n, hn⟩ := ih
      exact ⟨n + 1, by simpa [pyLStrip, hp] using hn⟩
    · exact ⟨0, by simp [pyLStrip, hp]⟩

theorem pyLStrip_head (p : Char → Bool) (l : List Char) :
    ∀ c t, pyLStrip p l = c :: t → p c = false := by
  induction l with
  | nil => intro c t h; simp [pyLStrip] at h
  | cons a l ih =>
    intro c t h
    by_cases hp : p a = true
    · simp only [pyLStrip, hp, if_true] at h
      exact ih c t h
    · simp only [pyLStrip, hp, Bool.false_eq_true, if_false, List.cons.injEq] at h
      rw [← h.1]
      simpa using hp

theorem pyRStrip_eq_take (p : Char → Bool) (l : List Char) :
    ∃ n, pyRStrip p l = l.take n := by
  induction l with
  | nil => exact ⟨0, rfl⟩
  | cons a l ih =>
    cases h : pyRStrip p l with
    | nil =>
      by_cases hp : p a = true
      · exact ⟨0, by simp [pyRStrip, h, hp]⟩
      · exact ⟨1, by simp [pyRStrip, h, hp]⟩
    | cons b r' =>
      obtain ⟨n, hn⟩ := ih
      refine ⟨n + 1, ?_⟩
      have : pyRStrip p (a :: l) = a :: b :: r' := by
        simp only [pyRStrip, h]
      rw [this, ← h, hn]
      simp

theorem pyRStrip_cons_shape (p : Char → Bool) (a : Char) (cs : List Char) :
    pyRStrip p (a :: cs) = [] ∨ ∃ t, pyRStrip p (a :: cs) = a :: t := by
  cases h : pyRStrip p cs with
  | nil =>
    by_cases hp : p a = true
    · exact Or.inl (by simp [pyRStrip, h, hp])
    · exact Or.inr ⟨[], by simp [pyRStrip, h, hp]⟩
  | cons b r' => exact Or.inr ⟨b :: r', by simp [pyRStrip, h]⟩

theorem pyRStrip_cons_of_not (p : Char → Bool) (a : Char) (cs : List Char)
    (hp : p a = false) : ∃ t, pyRStrip p (a :: cs) = a :: t := by
  rcases pyRStrip_cons_shape p a cs with h | h
  · cases hcs : pyRStrip p cs with
    | nil => simp [pyRStrip, hcs, hp] at h
    | cons b r' => simp [pyRStrip, hcs] at h
  · exact h

theorem pyRStrip_getLast (p : Char → Bool) (l : List Char) :
    ∀ c, (pyRStrip p l).getLast? = some c → p c = false := by
  induction l with
  | nil => intro c h; simp [pyRStrip] at h
  | cons a l ih =>
    intro c h
    cases hl : pyRStrip p l with
    | nil =>
      simp only [pyRStrip, hl] at h
      by_cases hp : p a = true
      · simp [hp] at h
      · simp only [hp, Bool.false_eq_true, if_false, List.getLast?_singleton,
          Option.some.injEq] at h
        rw [← h]
        simpa using hp
    | cons b r' =>
      have : pyRStrip p (a :: l) = a :: b :: r' := by simp only [pyRStrip, hl]
      rw [this, List.getLast?_cons_cons] at h
      exact ih c (by rw [hl]; exact h)

theorem pyStrip_head (p : Char → Bool) (l : List Char) :
    ∀ c, (pyStrip p l).head? = some c → p c = false := by
  intro c h
  unfold pyStrip at h
  cases hl : pyLStrip p l with
  | nil => rw [hl] at h; simp [pyRStrip] at h
  | cons a ms =>
    have ha : p a = false := pyLStrip_head p l a ms hl
    rw [hl] at h
    rcases pyRStrip_cons_shape p a ms with h2 | ⟨t, h2⟩
    · rw [h2] at h; simp at h
    · rw [h2] at h
      simp only [List.head?_cons, Option.some.injEq] at h
      rw [← h]; exact ha

theorem pyStrip_getLast (p : Char → Bool) (l : List Char) :
    ∀ c, (pyStrip p l).getLast? = some c → p c = false := by
  intro c h
  exact pyRStrip_getLast p (pyLStrip p l) c h

theorem pyRStrip_subset (p : Char → Bool) (l : List Char) : pyRStrip p l ⊆ l := by
  obtain ⟨n, hn⟩ := pyRStrip_eq_take p l
  rw [hn]
  exact List.take_subset n l

theorem pyLStrip_subset (p : Char → Bool) (l : List Char) : pyLStrip p l ⊆ l := by
  obtain ⟨n, hn⟩ := pyLStrip_eq_drop p l
  rw [hn]
  exact List.drop_subset n l

theorem pyStrip_subset (p : Char → Bool) (l : List Char) : pyStrip p l ⊆ l :=
  (pyRStrip_subset p (pyLStrip p l)).trans (pyLStrip_subset p l)

theorem pyRStrip_length_le (p : Char → Bool) (l : List Char) :
    (pyRStrip p l).length ≤ l.length := by
  obtain ⟨n, hn⟩ := pyRStrip_eq_take p l
  rw [hn]
  simp

/-- Helper for `collapseRuns`: `inRun` records whether the previous input
character belonged to the character class being collapsed. -/
def collapseRunsAux (p : Char → Bool) (r : Char) : Bool → List Char → List Char
  | _, [] => []
  | inRun, c :: cs =>
    if p c then
      if inRun then collapseRunsAux p r true cs
      else r :: collapseRunsAux p r true cs
    else c :: collapseRunsAux p r false cs

/-- `re.sub(klass+, r, s)` for a single-character class `p`: replace every
maximal run of characters of the class by the single character `r`. -/
def collapseRuns (p : Char → Bool) (r : Char) (l : List Char) : List Char :=
  collapseRunsAux p r false l

theorem mem_collapseRunsAux (p : Char → Bool) (r : Char) (l : List Char) :
    ∀ b c, c ∈ collapseRunsAux p r b l → c = r ∨ (c ∈ l ∧ p c = false) := by
  induction l with
  | nil => intro b c h; simp [collapseRunsAux] at h
  | cons a l ih =>
    intro b c h
    by_cases hp : p a = true
    · simp only [collapseRunsAux, hp, if_true] at h
      by_cases hb : b
      · rw [if_pos hb] at h
        rcases ih true c h with h' | h'
        · exact Or.inl h'
        · exact Or.inr ⟨by simp [h'.1], h'.2⟩
      · rw [if_neg hb] at h
        rcases List.mem_cons.mp h with rfl | h'
        · exact Or.inl rfl
        · rcases ih true c h' with h'' | h''
          · exact Or.inl h''
          · exact Or.inr ⟨by simp [h''.1], h''.2⟩
    · simp only [collapseRunsAux, hp, Bool.false_eq_true, if_false] at h
      rcases List.mem_cons.mp h with rfl | h'
      · exact Or.inr ⟨by simp, by simpa using hp⟩
      · rcases ih false c h' with h'' | h''
        · exact Or.inl h''
        · exact Or.inr ⟨by simp [h''.1], h''.2⟩

theorem mem_collapseRuns (p : Char → Bool) (r : Char) (l : List Char) :
    ∀ c ∈ collapseRuns p r l, c = r ∨ (c ∈ l ∧ p c = false) := by
  intro c h
  exact mem_collapseRunsAux p r l false c h

/-! ## naming.py: sanitize_filename -/

/-- The regex class `INVALID_CHARS`, i.e. the filesystem-illegal characters
replaced by a dash in `naming.sanitize_filename`. -/
def isInvalidFileChar (c : Char) : Bool :=
  c = '\\' || c = '/' || c = ':' || c = '*' || c = '?' || c = '\"' ||
    c = '<' || c = '>' || c = '|'

/-- The character set of Python's `.strip(" .")` / `.rstrip(" .")`. -/
def isDotSpace (c : Char) : Bool :=
  c = ' ' || c = '.'

/-- `naming.sanitize_filename`.  `removeDiacritics` stands for the
`unicodedata` NFKD-transliteration used only when `keep_umlauts` is false
(an external collaborator from the embedding's point of view). -/
def sanitize_filename (name : List Char) (keep_umlauts : Bool)
    (removeDiacritics : List Char → List Char) (max_len : Nat) : List Char :=
  let n1 := pyStrip pyIsSpace name
  let n2 := n1.map fun c => if isInvalidFileChar c then '-' else c
  let n3 := pyStrip isDotSpace (collapseRuns pyIsSpace ' ' n2)
  let n4 := if keep_umlauts then n3 else removeDiacritics n3
  let n5 := if n4 = [] then "Dokument".data else n4
  if max_len < n5.length then pyRStrip isDotSpace (n5.take max_len) else n5

theorem sanitize_core_no_invalid (name : List Char) :
    ∀ c ∈ pyStrip isDotSpace (collapseRuns pyIsSpace ' '
        ((pyStrip pyIsSpace name).map fun c => if isInvalidFileChar c then '-' else c)),
      isInvalidFileChar c = false := by
  intro c hc
  have hc2 := pyStrip_subset isDotSpace _ hc
  rcases mem_collapseRuns pyIsSpace ' ' _ c hc2 with rfl | ⟨hmem, _⟩
  · decide
  · rcases List.mem_map.mp hmem with ⟨a, _, ha⟩
    rw [← ha]
    by_cases hia : isInvalidFileChar a = true
    · simp only [hia, if_true]; decide
    · rw [if_neg hia]
      simpa using hia

/-- **C9** — for every input, with `keep_umlauts` on and `max_len ≥ 1`,
`sanitize_filename` returns a non-empty name of length at most `max_len`
containing none of the filesystem-illegal characters and neither beginning
nor ending with a space or a dot; and the two concrete evaluations from the
specification hold (at the source's default `max_len = 120`). -/
theorem sanitize_filename_spec :
    (∀ (name : List Char) (removeDiacritics : List Char → List Char) (max_len : Nat),
      1 ≤ max_len →
      sanitize_filename name true removeDiacritics max_len ≠ [] ∧
      (sanitize_filename name true removeDiacritics max_len).length ≤ max_len ∧
      (∀ c ∈ sanitize_filename name true removeDiacritics max_len,
        isInvalidFileChar c = false) ∧
      (∀ c, (sanitize_filename name true removeDiacritics max_len).head? = some c →
        isDotSpace c = false) ∧
      (∀ c, (sanitize_filename name true removeDiacritics max_len).getLast? = some c →
        isDotSpace c = false)) ∧
    (∀ f, sanitize_filename "  Rechnung: Telekom/DSL  ".data true f 120 =
      "Rechnung- Telekom-DSL".data) ∧
    (∀ f, sanitize_filename "".data true f 120 = "Dokument".data) := by
  refine ⟨?_, fun f => rfl, fun f => rfl⟩
  intro name removeDiacritics max_len hmax
  set n3 := pyStrip isDotSpace (collapseRuns pyIsSpace ' '
      ((pyStrip pyIsSpace name).map fun c => if isInvalidFileChar c then '-' else c))
    with hn3
  set n5 : List Char := if n3 = [] then "Dokument".data else n3 with hn5
  have hres : sanitize_filename name true removeDiacritics max_len =
      if max_len < n5.length then pyRStrip isDotSpace (n5.take max_len) else n5 := rfl
  -- facts about n5
  have h5ne : n5 ≠ [] := by
    rw [hn5]
    by_cases h : n3 = []
    · simp [h]
    · simp [h]
  have h5head : ∀ c, n5.head? = some c → isDotSpace c = false := by
    intro c hch
    rw [hn5] at hch
    by_cases h : n3 = []
    · rw [if_pos h] at hch
      simp only [List.head?_cons, Option.some.injEq] at hch
      rw [← hch]; decide
    · rw [if_neg h] at hch
      exact pyStrip_head isDotSpace _ c (by rw [← hn3]; exact hch)
  have h5last : ∀ c, n5.getLast? = some c → isDotSpace c = false := by
    intro c hcl
    rw [hn5] at hcl
    by_cases h : n3 = []
    · rw [if_pos h] at hcl
      have : ("Dokument".data).getLast? = some 't' := by decide
      rw [this] at hcl
      cases hcl
      decide
    · rw [if_neg h] at hcl
      exact pyStrip_getLast isDotSpace _ c (by rw [← hn3]; exact hcl)
  have h5chars : ∀ c ∈ n5, isInvalidFileChar c = false := by
    intro c hc
    rw [hn5] at hc
    by_cases h : n3 = []
    · rw [if_pos h] at hc
      fin_cases hc <;> decide
    · rw [if_neg h] at hc
      exact sanitize_core_no_invalid name c (by rw [hn3] at hc; exact hc)
  rw [hres]
  by_cases htr : max_len < n5.length
  · rw [if_pos htr]
    -- truncation branch: result = pyRStrip isDotSpace (n5.take max_len)
    obtain ⟨a, t5, ha⟩ := List.exists_cons_of_ne_nil h5ne
    have hahead : isDotSpace a = false := h5head a (by rw [ha]; rfl)
    have htake : n5.take max_len = a :: t5.take (max_len - 1) := by
      rw [ha]
      cases max_len with
      | zero => omega
      | succ k => simp
    obtain ⟨t, ht⟩ := pyRStrip_cons_of_not isDotSpace a (t5.take (max_len - 1)) hahead
    refine ⟨?_, ?_, ?_, ?_, ?_⟩
    · rw [htake, ht]; simp
    · calc (pyRStrip isDotSpace (n5.take max_len)).length
          ≤ (n5.take max_len).length := pyRStrip_length_le _ _
        _ ≤ max_len := by simp
    · intro c hc
      have := (pyRStrip_subset isDotSpace (n5.take max_len)) hc
      exact h5chars c (List.take_subset _ _ this)
    · intro c hch
      rw [htake, ht] at hch
      simp only [List.head?_cons, Option.some.injEq] at hch
      rw [← hch]; exact hahead
    · intro c hcl
      exact pyRStrip_getLast isDotSpace (n5.take max_len) c hcl
  · rw [if_neg htr]
    exact ⟨h5ne, by omega, h5chars, h5head, h5last⟩

/-- Witness for `sanitize_filename_spec` at a concrete input. -/
theorem sanitize_filename_spec_witness :
    sanitize_filename "a.b".data true id 2 ≠ [] ∧
      (sanitize_filename "a.b".data true id 2).length ≤ 2 :=
  ⟨(sanitize_filename_spec.1 "a.b".data id 2 (by decide)).1,
   (sanitize_filename_spec.1 "a.b".data id 2 (by decide)).2.1⟩

/-! ## naming.py: resolve_collision -/

/-- The n-th probed path of `naming.resolve_collision`: probe 0 is
`target_dir / (base_name + ext)`; probe `n ≥ 1` is
`target_dir / (base_name + suffix_format.format(n) + ext)`. -/
def collision_candidate (target_dir base_name ext : List Char)
    (suffixFormat : Nat → List Char) : Nat → List Char
  | 0 => target_dir ++ '/' :: (base_name ++ ext)
  | n + 1 => target_dir ++ '/' :: (base_name ++ suffixFormat (n + 1) ++ ext)

/-- The `RuntimeError` message raised when the suffix budget is exhausted. -/
def collisionError (target_dir base_name ext : List Char) : List Char :=
  "Too many collisions for ".data ++ base_name ++ ext ++ " in ".data ++ target_dir

/-- The `for n in range(1, max_suffix + 1)` probing loop of
`resolve_collision`; `ex` models `Path.exists` in the target directory and
`fuel` is the number of remaining probes. -/
def collisionProbe (ex : List Char → Bool) (target_dir base_name ext : List Char)
    (suffixFormat : Nat → List Char) : Nat → Nat → Except (List Char) (List Char)
  | _, 0 => .error (collisionError target_dir base_name ext)
  | n, fuel + 1 =>
    let c := collision_candidate target_dir base_name ext suffixFormat n
    if ex c then collisionProbe ex target_dir base_name ext suffixFormat (n + 1) fuel
    else .ok c

/-- `naming.resolve_collision`. -/
def resolve_collision (ex : List Char → Bool) (target_dir base_name ext : List Char)
    (suffixFormat : Nat → List Char) (max_suffix : Nat) :
    Except (List Char) (List Char) :=
  let candidate := collision_candidate target_dir base_name ext suffixFormat 0
  if ex candidate then
    collisionProbe ex target_dir base_name ext suffixFormat 1 max_suffix
  else .ok candidate

/-- The suffix pattern `"_{n}"` of the configuration used by the tests. -/
def suffixUnderscore (n : Nat) : List Char :=
  '_' :: Nat.toDigits 10 n

theorem resolve_collision_eq_probe (ex : List Char → Bool)
    (d b e : List Char) (f : Nat → List Char) (m : Nat) :
    resolve_collision ex d b e f m = collisionProbe ex d b e f 0 (m + 1) := by
  simp only [resolve_collision, collisionProbe]

theorem collisionProbe_ok (ex : List Char → Bool) (d b e : List Char)
    (f : Nat → List Char) (fuel : Nat) :
    ∀ n p, collisionProbe ex d b e f n fuel = .ok p →
      ∃ i, n ≤ i ∧ i < n + fuel ∧ p = collision_candidate d b e f i ∧
        ex (collision_candidate d b e f i) = false ∧
        ∀ j, n ≤ j → j < i → ex (collision_candidate d b e f j) = true := by
  induction fuel with
  | zero => intro n p h; simp [collisionProbe] at h
  | succ fuel ih =>
    intro n p h
    simp only [collisionProbe] at h
    by_cases hex : ex (collision_candidate d b e f n) = true
    · rw [if_pos hex] at h
      obtain ⟨i, h1, h2, h3, h4, h5⟩ := ih (n + 1) p h
      refine ⟨i, by omega, by omega, h3, h4, ?_⟩
      intro j hj1 hj2
      rcases Nat.eq_or_lt_of_le hj1 with rfl | hgt
      · exact hex
      · exact h5 j hgt hj2
    · rw [if_neg hex] at h
      refine ⟨n, Nat.le_refl n, by omega, ?_, by simpa using hex, ?_⟩
      · cases h; rfl
      · intro j hj1 hj2; omega

theorem collisionProbe_error (ex : List Char → Bool) (d b e : List Char)
    (f : Nat → List Char) (fuel : Nat) :
    ∀ n m, collisionProbe ex d b e f n fuel = .error m →
      m = collisionError d b e ∧
        ∀ i, n ≤ i → i < n + fuel → ex (collision_candidate d b e f i) = true := by
  induction fuel with
  | zero =>
    intro n m h
    simp only [collisionProbe, Except.error.injEq] at h
    exact ⟨h.symm, fun i _ h2 => by omega⟩
  | succ fuel ih =>
    intro n m h
    simp only [collisionProbe] at h
    by_cases hex : ex (collision_candidate d b e f n) = true
    · rw [if_pos hex] at h
      obtain ⟨hm, hall⟩ := ih (n + 1) m h
      refine ⟨hm, ?_⟩
      intro i h1 h2
      rcases Nat.eq_or_lt_of_le h1 with rfl | hgt
      · exact hex
      · exact hall i hgt (by omega)
    · rw [if_neg hex] at h
      cases h

theorem collisionProbe_error_of_all (ex : List Char → Bool) (d b e : List Char)
    (f : Nat → List Char) (fuel : Nat) :
    ∀ n, (∀ i, n ≤ i → i < n + fuel → ex (collision_candidate d b e f i) = true) →
      collisionProbe ex d b e f n fuel = .error (collisionError d b e) := by
  induction fuel with
  | zero => intro n _; rfl
  | succ fuel ih =>
    intro n hall
    have hex : ex (collision_candidate d b e f n) = true :=
      hall n (Nat.le_refl n) (by omega)
    simp only [collisionProbe, hex, if_true]
    exact ih (n + 1) fun i h1 h2 => hall i (by omega) (by omega)

/-- **C7** — `resolve_collision` returns the first non-existing path in probe
order (plain name, then suffixed names for n = 1, 2, …, max_suffix); it never
returns an existing path, and it raises the collision-exhaustion error iff
all `max_suffix + 1` candidates exist.  With suffix pattern `"_{n}"`,
resolving `"2025-11-11 Rechnung"` + `".pdf"` against a directory holding
`"2025-11-11 Rechnung.pdf"` yields `"2025-11-11 Rechnung_1.pdf"`, and
resolving again once that file exists too yields the `"_2"` name. -/
theorem resolve_collision_spec :
    (∀ (ex : List Char → Bool) (d b e : List Char) (f : Nat → List Char) (m : Nat)
       (p : List Char), resolve_collision ex d b e f m = .ok p →
        ex p = false ∧
        ∃ i, i ≤ m ∧ p = collision_candidate d b e f i ∧
          ∀ j, j < i → ex (collision_candidate d b e f j) = true) ∧
    (∀ (ex : List Char → Bool) (d b e : List Char) (f : Nat → List Char) (m : Nat),
      resolve_collision ex d b e f m = .error (collisionError d b e) ↔
        ∀ i, i ≤ m → ex (collision_candidate d b e f i) = true) ∧
    resolve_collision (fun p => p == "D/2025-11-11 Rechnung.pdf".data)
        "D".data "2025-11-11 Rechnung".data ".pdf".data suffixUnderscore 999 =
      .ok "D/2025-11-11 Rechnung_1.pdf".data ∧
    resolve_collision
        (fun p => p == "D/2025-11-11 Rechnung.pdf".data ||
          p == "D/2025-11-11 Rechnung_1.pdf".data)
        "D".data "2025-11-11 Rechnung".data ".pdf".data suffixUnderscore 999 =
      .ok "D/2025-11-11 Rechnung_2.pdf".data := by
  refine ⟨?_, ?_, rfl, rfl⟩
  · intro ex d b e f m p h
    rw [resolve_collision_eq_probe] at h
    obtain ⟨i, _, h2, h3, h4, h5⟩ := collisionProbe_ok ex d b e f (m + 1) 0 p h
    refine ⟨by rw [h3]; exact h4, i, by omega, h3, ?_⟩
    intro j hj
    exact h5 j (Nat.zero_le j) hj
  · intro ex d b e f m
    constructor
    · intro h
      rw [resolve_collision_eq_probe] at h
      obtain ⟨_, hall⟩ := collisionProbe_error ex d b e f (m + 1) 0 _ h
      intro i hi
      exact hall i (Nat.zero_le i) (by omega)
    · intro hall
      rw [resolve_collision_eq_probe]
      exact collisionProbe_error_of_all ex d b e f (m + 1) 0
        fun i _ h2 => hall i (by omega)

/-- Witness for `resolve_collision_spec` at a concrete input. -/
theorem resolve_collision_spec_witness :
    resolve_collision (fun _ => true) "d".data "b".data ".p".data suffixUnderscore 0 =
      .error (collisionError "d".data "b".data ".p".data) :=
  (resolve_collision_spec.2.1 (fun _ => true) "d".data "b".data ".p".data
    suffixUnderscore 0).mpr (fun _ _ => rfl)

/-! ## Single-space and word-count machinery for the label normalizer -/

/-- True unless the list starts with a literal space. -/
def firstNonSpace : List Char → Bool
  | a :: _ => !(a == ' ')
  | [] => true

/-- "All spaces are single": no two adjacent literal space characters. -/
def noTwoSpaces : List Char → Bool
  | a :: b :: t => !(a == ' ' && b == ' ') && noTwoSpaces (b :: t)
  | _ => true

theorem noTwoSpaces_cons (a : Char) (l : List Char) :
    noTwoSpaces (a :: l) = ((!(a == ' ') || firstNonSpace l) && noTwoSpaces l) := by
  cases l with
  | nil => simp [noTwoSpaces, firstNonSpace]
  | cons b t => simp [noTwoSpaces, firstNonSpace, Bool.not_and]

theorem firstNonSpace_take (l : List Char) (n : Nat)
    (h : firstNonSpace l = true) : firstNonSpace (l.take n) = true := by
  cases l with
  | nil => simp [firstNonSpace]
  | cons a t =>
    cases n with
    | zero => rfl
    | succ n => simpa [firstNonSpace] using h

theorem noTwoSpaces_take (l : List Char) :
    ∀ n, noTwoSpaces l = true → noTwoSpaces (l.take n) = true := by
  induction l with
  | nil => intro n _; simp [noTwoSpaces]
  | cons a t ih =>
    intro n h
    cases n with
    | zero => rfl
    | succ n =>
      rw [List.take_succ_cons, noTwoSpaces_cons]
      rw [noTwoSpaces_cons, Bool.and_eq_true, Bool.or_eq_true] at h
      refine Bool.and_eq_true .. |>.mpr ⟨?_, ih n h.2⟩
      rcases h.1 with h1 | h1
      · simp [h1]
      · simp [firstNonSpace_take t n h1]

theorem noTwoSpaces_tail (a : Char) (l : List Char)
    (h : noTwoSpaces (a :: l) = true) : noTwoSpaces l = true := by
  rw [noTwoSpaces_cons, Bool.and_eq_true] at h
  exact h.2

theorem noTwoSpaces_drop (l : List Char) :
    ∀ n, noTwoSpaces l = true → noTwoSpaces (l.drop n) = true := by
  induction l with
  | nil => intro n _; simp [noTwoSpaces]
  | cons a t ih =>
    intro n h
    cases n with
    | zero => exact h
    | succ n => exact ih n (noTwoSpaces_tail a t h)

theorem beq_space_eq_false_of_not_space (c : Char) (h : pyIsSpace c = false) :
    (c == ' ') = false := by
  by_cases hc : c = ' '
  · subst hc; simp [pyIsSpace] at h
  · simp [hc]

/-- The whitespace-collapsing substitution produces no two adjacent spaces,
and, when the previous input character was part of a whitespace run, its
output cannot begin with a space. -/
theorem collapseRunsAux_space_clean (l : List Char) :
    ∀ b, noTwoSpaces (collapseRunsAux pyIsSpace ' ' b l) = true ∧
      (b = true → firstNonSpace (collapseRunsAux pyIsSpace ' ' b l) = true) := by
  induction l with
  | nil => intro b; exact ⟨rfl, fun _ => rfl⟩
  | cons c cs ih =>
    intro b
    by_cases hsp : pyIsSpace c = true
    · by_cases hb : b = true
      · subst hb
        simp only [collapseRunsAux, hsp, if_true]
        exact ⟨(ih true).1, fun _ => (ih true).2 rfl⟩
      · have hb' : b = false := by simpa using hb
        subst hb'
        simp only [collapseRunsAux, hsp, if_true, Bool.false_eq_true, if_false]
        constructor
        · rw [noTwoSpaces_cons]
          simp only [(ih true).2 rfl, (ih true).1, Bool.or_true, Bool.and_self]
        · intro h; cases h
    · have hsp' : pyIsSpace c = false := by simpa using hsp
      have hbeq : (c == ' ') = false := beq_space_eq_false_of_not_space c hsp'
      simp only [collapseRunsAux, hsp', Bool.false_eq_true, if_false]
      constructor
      · rw [noTwoSpaces_cons, hbeq]
        simp [(ih false).1]
      · intro _
        simp [firstNonSpace, hbeq]

theorem noTwoSpaces_collapseRuns (l : List Char) :
    noTwoSpaces (collapseRuns pyIsSpace ' ' l) = true :=
  (collapseRunsAux_space_clean l false).1

theorem noTwoSpaces_pyStrip (l : List Char)
    (h : noTwoSpaces l = true) : noTwoSpaces (pyStrip pyIsSpace l) = true := by
  obtain ⟨n, hn⟩ := pyLStrip_eq_drop pyIsSpace l
  obtain ⟨m, hm⟩ := pyRStrip_eq_take pyIsSpace (pyLStrip pyIsSpace l)
  unfold pyStrip
  rw [hm, hn]
  exact noTwoSpaces_take _ m (noTwoSpaces_drop l n h)

/-! ## Word-count lemmas for `pySplit` -/

theorem pySplitAux_length_pos (l : List Char) :
    ∀ acc, acc ≠ [] → 1 ≤ (pySplitAux acc l).length := by
  induction l with
  | nil => intro acc h; simp [pySplitAux, h]
  | cons c cs ih =>
    intro acc h
    by_cases hsp : pyIsSpace c = true
    · simp only [pySplitAux, hsp, if_true, h, if_false]
      simp
    · have hsp' : pyIsSpace c = false := by simpa using hsp
      simp only [pySplitAux, hsp', Bool.false_eq_true, if_false]
      exact ih (c :: acc) (by simp)

theorem pySplitAux_take_length_le (l : List Char) :
    ∀ n acc, (pySplitAux acc (l.take n)).length ≤ (pySplitAux acc l).length := by
  induction l with
  | nil => intro n acc; simp
  | cons c cs ih =>
    intro n acc
    cases n with
    | zero =>
      simp only [List.take_zero, pySplitAux]
      by_cases h : acc = []
      · simp [h]
      · rw [if_neg h]
        simpa using pySplitAux_length_pos (c :: cs) acc h
    | succ n =>
      rw [List.take_succ_cons]
      by_cases hsp : pyIsSpace c = true
      · by_cases h : acc = []
        · simp only [pySplitAux, hsp, if_true, h]
          exact ih n []
        · simp only [pySplitAux, hsp, if_true, h, if_false, List.length_cons]
          exact Nat.succ_le_succ (ih n [])
      · have hsp' : pyIsSpace c = false := by simpa using hsp
        simp only [pySplitAux, hsp', Bool.false_eq_true, if_false]
        exact ih n (c :: acc)

theorem pySplit_take_length_le (l : List Char) (n : Nat) :
    (pySplit (l.take n)).length ≤ (pySplit l).length :=
  pySplitAux_take_length_le l n []

theorem pySplitAux_mem_subset (l : List Char) :
    ∀ acc w, w ∈ pySplitAux acc l → ∀ c ∈ w, c ∈ acc ∨ c ∈ l := by
  induction l with
  | nil =>
    intro acc w hw c hc
    by_cases h : acc = []
    · simp [pySplitAux, h] at hw
    · simp only [pySplitAux, h, if_false] at hw
      simp only [List.mem_singleton] at hw
      subst hw
      exact Or.inl (by simpa using hc)
  | cons a cs ih =>
    intro acc w hw c hc
    by_cases hsp : pyIsSpace a = true
    · by_cases h : acc = []
      · simp only [pySplitAux, hsp, if_true, h, if_true] at hw
        rcases ih [] w hw c hc with h' | h'
        · simp at h'
        · exact Or.inr (by simp [h'])
      · simp only [pySplitAux, hsp, if_true, h, if_false] at hw
        rcases List.mem_cons.mp hw with rfl | hw'
        · exact Or.inl (by simpa using hc)
        · rcases ih [] w hw' c hc with h' | h'
          · simp at h'
          · exact Or.inr (by simp [h'])
    · have hsp' : pyIsSpace a = false := by simpa using hsp
      simp only [pySplitAux, hsp', Bool.false_eq_true, if_false] at hw
      rcases ih (a :: acc) w hw c hc with h' | h'
      · rcases List.mem_cons.mp h' with rfl | h''
        · exact Or.inr (by simp)
        · exact Or.inl h''
      · exact Or.inr (by simp [h'])

theorem pySplit_mem_subset (l : List Char) :
    ∀ w ∈ pySplit l, ∀ c ∈ w, c ∈ l := by
  intro w hw c hc
  rcases pySplitAux_mem_subset l [] w hw c hc with h | h
  · simp at h
  · exact h

/-! ## joinSpace lemmas -/

theorem mem_joinSpace (ws : List (List Char)) :
    ∀ c ∈ joinSpace ws, c = ' ' ∨ ∃ w ∈ ws, c ∈ w := by
  induction ws with
  | nil => intro c hc; simp [joinSpace] at hc
  | cons w ws ih =>
    intro c hc
    cases ws with
    | nil =>
      refine Or.inr ⟨w, by simp, ?_⟩
      simpa [joinSpace] using hc
    | cons w' ws' =>
      have : joinSpace (w :: w' :: ws') = w ++ ' ' :: joinSpace (w' :: ws') := rfl
      rw [this] at hc
      rcases List.mem_append.mp hc with h | h
      · exact Or.inr ⟨w, by simp, h⟩
      · rcases List.mem_cons.mp h with rfl | h'
        · exact Or.inl rfl
        · rcases ih c h' with h'' | ⟨w'', hw1, hw2⟩
          · exact Or.inl h''
          · exact Or.inr ⟨w'', by simp [hw1], hw2⟩

theorem noTwoSpaces_append_word (w : List Char) (hw : ∀ c ∈ w, pyIsSpace c = false)
    (l : List Char) (hl : noTwoSpaces l = true) :
    noTwoSpaces (w ++ l) = true ∧ (w ≠ [] → firstNonSpace (w ++ l) = true) := by
  induction w with
  | nil => exact ⟨by simpa using hl, fun h => absurd rfl h⟩
  | cons c w' ih =>
    have hc : (c == ' ') = false :=
      beq_space_eq_false_of_not_space c (hw c (by simp))
    have ih' := ih fun x hx => hw x (by simp [hx])
    constructor
    · rw [List.cons_append, noTwoSpaces_cons, hc]
      simp [ih'.1]
    · intro _
      rw [List.cons_append]
      simp [firstNonSpace, hc]

theorem joinSpace_clean (ws : List (List Char))
    (h : ∀ w ∈ ws, w ≠ [] ∧ ∀ c ∈ w, pyIsSpace c = false) :
    noTwoSpaces (joinSpace ws) = true ∧ firstNonSpace (joinSpace ws) = true := by
  induction ws with
  | nil => exact ⟨rfl, rfl⟩
  | cons w ws ih =>
    have hw := h w (by simp)
    have hws : ∀ w' ∈ ws, w' ≠ [] ∧ ∀ c ∈ w', pyIsSpace c = false :=
      fun w' hw' => h w' (by simp [hw'])
    cases ws with
    | nil =>
      have : joinSpace [w] = w := rfl
      rw [this]
      have := noTwoSpaces_append_word w hw.2 [] rfl
      rw [List.append_nil] at this
      exact ⟨this.1, this.2 hw.1⟩
    | cons w' ws' =>
      have hJ := ih hws
      have hmid : noTwoSpaces (' ' :: joinSpace (w' :: ws')) = true := by
        rw [noTwoSpaces_cons]
        simp [hJ.1, hJ.2]
      have happ := noTwoSpaces_append_word w hw.2 (' ' :: joinSpace (w' :: ws')) hmid
      have hjoin : joinSpace (w :: w' :: ws') = w ++ ' ' :: joinSpace (w' :: ws') := rfl
      rw [hjoin]
      exact ⟨happ.1, happ.2 hw.1⟩

/-! ## llm.py: _normalize_filename_label -/

/-- The regex class `[A-Za-zÄÖÜäöüß ]` kept by the letters-only substitution
of `_normalize_filename_label`. -/
def isAllowedKeep (c : Char) : Bool :=
  ('A' ≤ c && c ≤ 'Z') || ('a' ≤ c && c ≤ 'z') ||
    c == 'Ä' || c == 'Ö' || c == 'Ü' || c == 'ä' || c == 'ö' || c == 'ü' ||
    c == 'ß' || c == ' '

/-- The character set of the `.strip(" .-_\x22'“”„")` call in
`_normalize_filename_label`. -/
def stripPunct (c : Char) : Bool :=
  c = ' ' || c = '.' || c = '-' || c = '_' || c = '\"' || c = '\'' ||
    c = '“' || c = '”' || c = '„'

theorem allowed_not_digit (c : Char) (h : isAllowedKeep c = true) :
    pyIsDigit c = false := by
  by_contra hd
  have hd' : pyIsDigit c = true := by
    cases hdb : pyIsDigit c
    · exact absurd hdb hd
    · rfl
  unfold pyIsDigit at hd'
  simp only [Bool.and_eq_true, decide_eq_true_eq] at hd'
  unfold isAllowedKeep at h
  simp only [Bool.or_eq_true, Bool.and_eq_true, decide_eq_true_eq, beq_iff_eq] at h
  rcases h with ((((((((⟨h1, h2⟩ | ⟨h1, h2⟩) | rfl) | rfl) | rfl) | rfl) | rfl) | rfl) | rfl) | rfl
  · exact absurd (le_trans h1 hd'.2) (by decide)
  · exact absurd (le_trans h1 hd'.2) (by decide)
  all_goals revert hd'; decide

/-- `llm._normalize_filename_label`: collapse whitespace, strip surrounding
punctuation/quotes, replace digit-containing labels by the placeholder, keep
only German letters and spaces, cap at 3 words and 32 characters, defaulting
to "Dokument" whenever the label empties out. -/
def normalize_filename_label (label : List Char) : List Char :=
  let l1 := collapseRuns pyIsSpace ' ' (pyStrip pyIsSpace label)
  let l3 := pyStrip stripPunct l1
  if l3 = [] then "Dokument".data
  else if l3.any pyIsDigit then "Dokument".data
  else
    let l4 := collapseRuns (fun c => !isAllowedKeep c) ' ' l3
    let l5 := pyStrip pyIsSpace (collapseRuns pyIsSpace ' ' l4)
    let ws := pySplit l5
    if ws.length = 0 then "Dokument".data
    else
      let l6 := if 3 < ws.length then joinSpace (ws.take 3) else l5
      let l7 := if 32 < l6.length then pyRStrip pyIsSpace (l6.take 32) else l6
      if l7 = [] then "Dokument".data else l7

theorem dokument_spec :
    ("Dokument".data ≠ [] ∧ (∀ c ∈ "Dokument".data, isAllowedKeep c = true) ∧
      noTwoSpaces "Dokument".data = true ∧
      (pySplit "Dokument".data).length ≤ 3 ∧ ("Dokument".data).length ≤ 32) := by
  refine ⟨by decide, ?_, by decide, by decide, by decide⟩
  intro c hc
  fin_cases hc <;> decide

/-- **C8** — for every raw label, the classifier's post-parse label
normalization yields a non-empty label made only of German letters and
single spaces (hence containing no digit), with at most 3 words (per
Python's `.split()`) and at most 32 characters. -/
theorem normalize_filename_label_spec (label : List Char) :
    normalize_filename_label label ≠ [] ∧
    (∀ c ∈ normalize_filename_label label, isAllowedKeep c = true) ∧
    noTwoSpaces (normalize_filename_label label) = true ∧
    (∀ c ∈ normalize_filename_label label, pyIsDigit c = false) ∧
    (pySplit (normalize_filename_label label)).length ≤ 3 ∧
    (normalize_filename_label label).length ≤ 32 := by
  have hdok := dokument_spec
  -- every branch except the final one returns "Dokument"; package the goal
  have main : ∀ r : List Char, r ≠ [] → (∀ c ∈ r, isAllowedKeep c = true) →
      noTwoSpaces r = true → (pySplit r).length ≤ 3 → r.length ≤ 32 →
      r ≠ [] ∧ (∀ c ∈ r, isAllowedKeep c = true) ∧ noTwoSpaces r = true ∧
        (∀ c ∈ r, pyIsDigit c = false) ∧ (pySplit r).length ≤ 3 ∧ r.length ≤ 32 :=
    fun r h1 h2 h3 h4 h5 =>
      ⟨h1, h2, h3, fun c hc => allowed_not_digit c (h2 c hc), h4, h5⟩
  unfold normalize_filename_label
  set l3 := pyStrip stripPunct
      (collapseRuns pyIsSpace ' ' (pyStrip pyIsSpace label)) with hl3
  by_cases h3e : l3 = []
  · rw [if_pos h3e]
    exact main _ hdok.1 hdok.2.1 hdok.2.2.1 hdok.2.2.2.1 hdok.2.2.2.2
  rw [if_neg h3e]
  by_cases h3d : l3.any pyIsDigit = true
  · rw [if_pos h3d]
    exact main _ hdok.1 hdok.2.1 hdok.2.2.1 hdok.2.2.2.1 hdok.2.2.2.2
  rw [if_neg h3d]
  set l4 := collapseRuns (fun c => !isAllowedKeep c) ' ' l3 with hl4
  set l5 := pyStrip pyIsSpace (collapseRuns pyIsSpace ' ' l4) with hl5
  set ws := pySplit l5 with hws
  -- characters of l5 are allowed
  have h4chars : ∀ c ∈ l4, isAllowedKeep c = true := by
    intro c hc
    rcases mem_collapseRuns (fun c => !isAllowedKeep c) ' ' l3 c hc with rfl | ⟨_, hp⟩
    · decide
    · simpa using hp
  have h5chars : ∀ c ∈ l5, isAllowedKeep c = true := by
    intro c hc
    have hc2 := pyStrip_subset pyIsSpace _ hc
    rcases mem_collapseRuns pyIsSpace ' ' l4 c hc2 with rfl | ⟨hmem, _⟩
    · decide
    · exact h4chars c hmem
  have h5nts : noTwoSpaces l5 = true :=
    noTwoSpaces_pyStrip _ (noTwoSpaces_collapseRuns l4)
  have hwords : ∀ w ∈ ws, w ≠ [] ∧ ∀ c ∈ w, pyIsSpace c = false :=
    pySplitAux_sound l5 [] (by simp)
  by_cases hws0 : ws.length = 0
  · rw [if_pos hws0]
    exact main _ hdok.1 hdok.2.1 hdok.2.2.1 hdok.2.2.2.1 hdok.2.2.2.2
  rw [if_neg hws0]
  set l6 := if 3 < ws.length then joinSpace (ws.take 3) else l5 with hl6
  have h6chars : ∀ c ∈ l6, isAllowedKeep c = true := by
    rw [hl6]
    by_cases hgt : 3 < ws.length
    · rw [if_pos hgt]
      intro c hc
      rcases mem_joinSpace (ws.take 3) c hc with rfl | ⟨w, hw1, hw2⟩
      · decide
      · exact h5chars c (pySplit_mem_subset l5 w (List.take_subset 3 ws hw1) c hw2)
    · rw [if_neg hgt]; exact h5chars
  have h6nts : noTwoSpaces l6 = true := by
    rw [hl6]
    by_cases hgt : 3 < ws.length
    · rw [if_pos hgt]
      exact (joinSpace_clean (ws.take 3)
        fun w hw => hwords w (List.take_subset 3 ws hw)).1
    · rw [if_neg hgt]; exact h5nts
  have h6wc : (pySplit l6).length ≤ 3 := by
    rw [hl6]
    by_cases hgt : 3 < ws.length
    · rw [if_pos hgt]
      rw [pySplit_joinSpace (ws.take 3) fun w hw => hwords w (List.take_subset 3 ws hw)]
      simp
    · rw [if_neg hgt]
      rw [← hws]
      omega
  set l7 := if 32 < l6.length then pyRStrip pyIsSpace (l6.take 32) else l6 with hl7
  have h7chars : ∀ c ∈ l7, isAllowedKeep c = true := by
    rw [hl7]
    by_cases hgt : 32 < l6.length
    · rw [if_pos hgt]
      intro c hc
      exact h6chars c (List.take_subset 32 l6 (pyRStrip_subset pyIsSpace _ hc))
    · rw [if_neg hgt]; exact h6chars
  have h7nts : noTwoSpaces l7 = true := by
    rw [hl7]
    by_cases hgt : 32 < l6.length
    · rw [if_pos hgt]
      obtain ⟨k, hk⟩ := pyRStrip_eq_take pyIsSpace (l6.take 32)
      rw [hk]
      exact noTwoSpaces_take _ k (noTwoSpaces_take l6 32 h6nts)
    · rw [if_neg hgt]; exact h6nts
  have h7wc : (pySplit l7).length ≤ 3 := by
    rw [hl7]
    by_cases hgt : 32 < l6.length
    · rw [if_pos hgt]
      obtain ⟨k, hk⟩ := pyRStrip_eq_take pyIsSpace (l6.take 32)
      rw [hk]
      calc (pySplit ((l6.take 32).take k)).length
          ≤ (pySplit (l6.take 32)).length := pySplit_take_length_le _ k
        _ ≤ (pySplit l6).length := pySplit_take_length_le l6 32
        _ ≤ 3 := h6wc
    · rw [if_neg hgt]; exact h6wc
  have h7len : l7.length ≤ 32 := by
    rw [hl7]
    by_cases hgt : 32 < l6.length
    · rw [if_pos hgt]
      calc (pyRStrip pyIsSpace (l6.take 32)).length
          ≤ (l6.take 32).length := pyRStrip_length_le _ _
        _ ≤ 32 := by simp
    · rw [if_neg hgt]; omega
  by_cases h7e : l7 = []
  · rw [if_pos h7e]
    exact main _ hdok.1 hdok.2.1 hdok.2.2.1 hdok.2.2.2.1 hdok.2.2.2.2
  · rw [if_neg h7e]
    exact main l7 h7e h7chars h7nts h7wc h7len

/-! ## classifier.py / llm.py: the two-stage classifier

`llm.build_prompt` is declared with two positional parameters
(`extracted_text`, `known_senders`, llm.py line 41), but
`classifier.classify_multi_stage` invokes it as
`build_prompt(text, known_senders, existing_folders)` with three positional
arguments (classifier.py line 28).  In Python this raises `TypeError` at the
call site, before `build_prompt`'s body and before any model call, and
`classify_multi_stage` has no handler, so the exception propagates.
`build_prompt_call` embeds this call-site semantics. -/

/-- The result record parsed from one model response
(`llm.LLMResult`, confidence already clamped to [0,1] by `to_llm_result`). -/
structure LLMResult where
  sender_canonical : String
  confidence : ℚ
  evidence : List String
  document_type : String
  filename_label : String
  notes : String
  is_private : Bool
  target_folder : String
  folder_reason : String
  raw_json : String
  model : String
deriving DecidableEq

/-- `classifier.ClassificationDecision`. -/
structure ClassificationDecision where
  final : LLMResult
  stage_used : Nat
  stage1 : Option LLMResult
  stage2 : Option LLMResult
deriving DecidableEq

/-- The `TypeError` text Python raises for the 3-argument call of the
2-parameter `build_prompt`. -/
def buildPromptTypeError : String :=
  "TypeError: build_prompt() takes 2 positional arguments but 3 were given"

/-- Semantics of the call `build_prompt(text, known_senders, existing_folders)`
in `classify_multi_stage` (classifier.py line 28): `llm.build_prompt` accepts
only two positional arguments, so the call raises before the prompt body is
ever evaluated. -/
def build_prompt_call (_text : String) (_known_senders _existing_folders : List String) :
    Except String String :=
  .error buildPromptTypeError

/-- The local acceptance test `good_enough` of `classify_multi_stage`. -/
def good_enough (threshold_accept : ℚ) (require_evidence : Bool) (r : LLMResult) : Bool :=
  if r.confidence < threshold_accept then false
  else if require_evidence && r.evidence.isEmpty then false
  else true

/-- The stage-2 tie-break of `classify_multi_stage` (classifier.py lines
46-49): pick the higher confidence, stage 2 winning ties, and record the
winning stage. -/
def pick_final (r1 r2 : LLMResult) : LLMResult × Nat :=
  if r1.confidence ≤ r2.confidence then (r2, 2) else (r1, 1)

/-- `classifier.classify_multi_stage`.  `stageCall model prompt temperature`
models the fallible collaborator pipeline `client.generate_json` followed by
`to_llm_result` (HTTP/timeout errors and unrecoverable JSON are its `.error`
cases). -/
def classify_multi_stage
    (stageCall : String → String → ℚ → Except String LLMResult)
    (text : String) (known_senders existing_folders : List String)
    (model_stage1 model_stage2 : String) (temperature : ℚ)
    (threshold_accept : ℚ) (require_evidence : Bool) :
    Except String ClassificationDecision := do
  let prompt ← build_prompt_call text known_senders existing_folders
  let r1 ← stageCall model_stage1 prompt temperature
  if good_enough threshold_accept require_evidence r1 then
    pure ⟨r1, 1, some r1, none⟩
  else
    let r2 ← stageCall model_stage2 prompt temperature
    let fu := pick_final r1 r2
    pure ⟨fu.1, fu.2, some r1, some r2⟩

/-- **C2** — contrary to the claim that prompt construction always succeeds
and only model calls or unparseable output can raise, `classify_multi_stage`
raises the arity `TypeError` during prompt construction on *every* input,
even when every collaborator call would succeed. -/
theorem classify_multi_stage_always_type_error
    (stageCall : String → String → ℚ → Except String LLMResult)
    (text : String) (known_senders existing_folders : List String)
    (model_stage1 model_stage2 : String) (temperature threshold_accept : ℚ)
    (require_evidence : Bool) :
    classify_multi_stage stageCall text known_senders existing_folders
      model_stage1 model_stage2 temperature threshold_accept require_evidence =
      .error buildPromptTypeError := rfl

/-- A stage-1 stub result that passes the acceptance test at threshold 0.7
with evidence required. -/
def stubAccept : LLMResult :=
  ⟨"Telekom", 95/100, ["Rechnung Nr 4711"], "invoice", "Rechnung", "",
    false, "", "", "raw1", "m1"⟩

/-- A second-stage stub (never reached). -/
def stubOther : LLMResult :=
  ⟨"Telekom", 1/2, ["Logo"], "invoice", "Rechnung", "",
    false, "", "", "raw2", "m2"⟩

/-- **C4** — the stage-1 stub passes the acceptance test
(`confidence 0.95 ≥ 0.7` and evidence non-empty with evidence required), yet
`classify_multi_stage` does not return it with `stage_used = 1`: it raises
the prompt-construction `TypeError` before the stage-1 model is even
consulted, so no input can exhibit the claimed acceptance behavior. -/
theorem classify_stage1_accept_diverges :
    good_enough (7/10) true stubAccept = true ∧
    classify_multi_stage (fun m _ _ => if m = "m1" then .ok stubAccept else .ok stubOther)
        "Text" ["Telekom"] ["Telekom"] "m1" "m2" 0 (7/10) true =
      .error buildPromptTypeError := by
  constructor
  · norm_num [good_enough, stubAccept]
  · rfl

/-- Stage-1 stub for the tie-break scenario: confidence 0.75, rejected at
threshold 0.8. -/
def stubTie1 : LLMResult :=
  ⟨"A", 3/4, ["e1"], "other", "Dokument", "", false, "", "", "raw1", "m1"⟩

/-- Stage-2 stub with equal confidence 0.75. -/
def stubTie2 : LLMResult :=
  ⟨"B", 3/4, ["e2"], "other", "Dokument", "", false, "", "", "raw2", "m2"⟩

/-- **C5** — the tie-break expression of the code indeed prefers stage 2 on
an exact confidence tie (0.75 vs 0.75), but the claimed behavior is
unreachable: `classify_multi_stage` raises the prompt-construction
`TypeError` before stage 1 runs, so stage 2 can never run at all. -/
theorem classify_tie_break_diverges :
    pick_final stubTie1 stubTie2 = (stubTie2, 2) ∧
    good_enough (4/5) false stubTie1 = false ∧
    classify_multi_stage (fun m _ _ => if m = "m1" then .ok stubTie1 else .ok stubTie2)
        "Text" [] [] "m1" "m2" 0 (4/5) false =
      .error buildPromptTypeError := by
  refine ⟨by norm_num [pick_final, stubTie1, stubTie2], ?_, rfl⟩
  norm_num [good_enough, stubTie1]

/-! ## utils.py / main.py: extraction quality gate -/

/-- `utils.alnum_ratio`: 0.0 for empty text, else the fraction of
alphanumeric characters. -/
def alnum_ratio (text : List Char) : ℚ :=
  if text = [] then 0
  else (text.countP Char.isAlphanum : ℚ) / ((max 1 text.length : Nat) : ℚ)

/-- The OCR-related configuration slice of `AppConfig` read by
`process_one`. -/
structure OcrConfig where
  use_vision : Bool
  min_text_chars : Nat
  min_alnum_ratio : ℚ

/-- The `need_ocr` test of `process_one` (main.py lines 91-93). -/
def need_ocr (cfg : OcrConfig) (extracted_text : List Char) : Bool :=
  (extracted_text.length < cfg.min_text_chars) ||
    (alnum_ratio extracted_text < cfg.min_alnum_ratio)

/-- Output of the OCR collaborator chain
(`render_pages` + `ocr_pages_with_vision`, wrapped in one `try`). -/
structure OcrResult where
  text : List Char
  pages_processed : Nat

/-- The text-layer result after `process_one`'s first `try`: an extraction
exception is downgraded to empty text. -/
def textlayer_text (textlayer : Except String (List Char)) : List Char :=
  match textlayer with
  | .ok t => t
  | .error _ => []

/-- Result of the extraction phase of `process_one` (main.py lines 79-107). -/
structure ExtractOutcome where
  extraction_method : String
  pages_processed : Nat
  extracted_text : List Char
  error : Option String
  ocr_invoked : Bool
deriving DecidableEq

/-- The extraction phase of `process_one`: text layer first (exceptions
become empty text), then the OCR fallback iff `need_ocr` and OCR is enabled;
an OCR exception sets the document error and keeps the text-layer text. -/
def extract_phase (cfg : OcrConfig) (textlayer : Except String (List Char))
    (ocr : Except String OcrResult) : ExtractOutcome :=
  let extracted_text := textlayer_text textlayer
  if need_ocr cfg extracted_text && cfg.use_vision then
    match ocr with
    | .ok res => ⟨"vision_ocr", res.pages_processed, res.text, none, true⟩
    | .error e => ⟨"vision_ocr", 0, extracted_text, some ("OCR failed: " ++ e), true⟩
  else ⟨"textlayer", 0, extracted_text, none, false⟩

theorem need_ocr_iff (cfg : OcrConfig) (t : List Char) :
    need_ocr cfg t = true ↔
      (t.length < cfg.min_text_chars ∨ alnum_ratio t < cfg.min_alnum_ratio) := by
  simp [need_ocr]

theorem extract_phase_invoked (cfg : OcrConfig) (tl : Except String (List Char))
    (ocr : Except String OcrResult) :
    (extract_phase cfg tl ocr).ocr_invoked =
      (need_ocr cfg (textlayer_text tl) && cfg.use_vision) := by
  unfold extract_phase
  by_cases h : (need_ocr cfg (textlayer_text tl) && cfg.use_vision) = true
  · rw [if_pos h, h]
    cases ocr <;> rfl
  · rw [if_neg h]
    have := Bool.eq_false_iff.mpr h
    rw [this]

/-- **C6** — with OCR enabled, the OCR fallback is invoked iff the extracted
text is shorter than `min_text_chars` or its alphanumeric ratio is below
`min_alnum_ratio`; texts meeting both thresholds never trigger OCR; and the
two concrete `alnum_ratio` evaluations of the specification hold. -/
theorem ocr_gate_spec :
    (∀ (cfg : OcrConfig) (tl : Except String (List Char)) (ocr : Except String OcrResult),
      cfg.use_vision = true →
      ((extract_phase cfg tl ocr).ocr_invoked = true ↔
        ((textlayer_text tl).length < cfg.min_text_chars ∨
          alnum_ratio (textlayer_text tl) < cfg.min_alnum_ratio))) ∧
    (∀ (cfg : OcrConfig) (tl : Except String (List Char)) (ocr : Except String OcrResult),
      cfg.use_vision = true →
      cfg.min_text_chars ≤ (textlayer_text tl).length →
      cfg.min_alnum_ratio ≤ alnum_ratio (textlayer_text tl) →
      (extract_phase cfg tl ocr).ocr_invoked = false) ∧
    alnum_ratio "abc 123".data > 1/2 ∧
    alnum_ratio "!!!".data = 0 := by
  have hmain : ∀ (cfg : OcrConfig) (tl : Except String (List Char))
      (ocr : Except String OcrResult), cfg.use_vision = true →
      ((extract_phase cfg tl ocr).ocr_invoked = true ↔
        ((textlayer_text tl).length < cfg.min_text_chars ∨
          alnum_ratio (textlayer_text tl) < cfg.min_alnum_ratio)) := by
    intro cfg tl ocr hv
    rw [extract_phase_invoked, hv, Bool.and_true]
    exact need_ocr_iff cfg (textlayer_text tl)
  refine ⟨hmain, ?_, ?_, ?_⟩
  · intro cfg tl ocr hv hlen hratio
    have h := hmain cfg tl ocr hv
    cases hb : (extract_phase cfg tl ocr).ocr_invoked
    · rfl
    · rcases h.mp hb with hc | hc
      · omega
      · exact absurd hc (not_lt.mpr hratio)
  · have h1 : ("abc 123".data.countP Char.isAlphanum) = 6 := by decide
    have h2 : (max 1 ("abc 123".data.length) : Nat) = 7 := by decide
    have h3 : ("abc 123".data ≠ ([] : List Char)) := by decide
    unfold alnum_ratio
    rw [if_neg h3, h1, h2]
    norm_num
  · have h1 : ("!!!".data.countP Char.isAlphanum) = 0 := by decide
    have h3 : ("!!!".data ≠ ([] : List Char)) := by decide
    unfold alnum_ratio
    rw [if_neg h3, h1]
    norm_num

/-- Witness for `ocr_gate_spec` at a concrete input. -/
theorem ocr_gate_spec_witness :
    (extract_phase ⟨true, 10, 0⟩ (.ok "ab".data) (.ok ⟨"gescannt".data, 1⟩)).ocr_invoked
      = true :=
  (ocr_gate_spec.1 ⟨true, 10, 0⟩ (.ok "ab".data) (.ok ⟨"gescannt".data, 1⟩) rfl).mpr
    (Or.inl (by decide))

/-! ## main.py: routing decision (process_one lines 172-232) -/

/-- `mapping.SenderMapping`: the two dictionaries of the mapping file,
modelled as association lists. -/
structure SenderMapping where
  folders : List (List Char × List Char)
  synonyms : List (List Char × List Char)

/-- The configuration slice read by the routing block of `process_one`. -/
structure RoutePolicy where
  threshold_safe_to_file : ℚ
  allow_llm_folder_override : Bool
  llm_folder_override_min_conf : ℚ
  route_unknown_sender_to_fallback : Bool
  fallback_dir : List Char
  fallback_dir_name : List Char
  documents_dir : List Char

/-- The routing-relevant outputs of `process_one`. -/
structure RouteResult where
  routed_to_fallback : Bool
  final_folder : List Char
  target_dir : List Char
deriving DecidableEq

/-- Python `str.lower()` (ASCII model). -/
def lowerStr (l : List Char) : List Char :=
  l.map Char.toLower

/-- The fixed fallback-synonym set of main.py line 201. -/
def is_fallback_synonym (f : List Char) : Bool :=
  f == "_unklar".data || f == "unklar".data || f == "fallback".data

/-- The guard of the LLM folder-override block (main.py lines 193-198):
no error, override enabled, non-empty (stripped) suggested folder, and
confidence at or above the override threshold. -/
def override_condition (pol : RoutePolicy) (error : Option String) (final_conf : ℚ)
    (llm_target_folder : List Char) : Bool :=
  !error.isSome && pol.allow_llm_folder_override && !llm_target_folder.isEmpty &&
    (pol.llm_folder_override_min_conf ≤ final_conf)

/-- The routing decision of `process_one` (main.py lines 172-232) as a
function of the classifier outputs: error/low-confidence pre-marking, the
optional LLM folder override (inside which `is_private` forces fallback),
then fallback or mapping-based routing. -/
def decide_routing (pol : RoutePolicy) (map : SenderMapping) (error : Option String)
    (final_conf : ℚ) (llm_target_folder_raw : List Char) (llm_is_private : Bool)
    (final_sender : List Char) : RouteResult :=
  let routed0 : Bool :=
    if error.isSome then true else (final_conf < pol.threshold_safe_to_file)
  let llm_target_folder := pyStrip pyIsSpace llm_target_folder_raw
  if override_condition pol error final_conf llm_target_folder then
    if is_fallback_synonym (lowerStr llm_target_folder) || llm_is_private then
      ⟨true, pol.fallback_dir_name, pol.fallback_dir⟩
    else
      ⟨routed0, llm_target_folder, pol.documents_dir ++ '/' :: llm_target_folder⟩
  else if routed0 then ⟨true, pol.fallback_dir_name, pol.fallback_dir⟩
  else
    let canon := canonicalize map.synonyms final_sender
    match folder_for map.folders canon with
    | some folder => ⟨false, folder, pol.documents_dir ++ '/' :: folder⟩
    | none =>
      if pol.route_unknown_sender_to_fallback then
        ⟨true, pol.fallback_dir_name, pol.fallback_dir⟩
      else ⟨false, canon, pol.documents_dir ++ '/' :: canon⟩

/-- A policy with the LLM folder override disabled (thresholds chosen so the
high-confidence private document passes the low-confidence rule). -/
def polNoOverride : RoutePolicy :=
  ⟨0, false, 1, false, "/base/_Unklar".data, "_Unklar".data, "/base/Dokumente".data⟩

/-- A mapping that knows the sender Telekom. -/
def mapTelekom : SenderMapping :=
  ⟨[("Telekom".data, "Telekom".data)], []⟩

/-- **C1 (counterexample)** — a document the classifier marked private
(`is_private = true`, confidence 1) is routed to the mapped sender folder,
not to the fallback folder, when the LLM folder override is disabled: the
privacy rule is only applied inside the override block, so it *can* be
bypassed by the override configuration. -/
theorem privacy_bypassed_counterexample :
    decide_routing polNoOverride mapTelekom none 1 [] true "Telekom".data =
      ⟨false, "Telekom".data, "/base/Dokumente/Telekom".data⟩ := by decide

/-- When, per main.py lines 193-198, the LLM folder-override block applies. -/
def override_path_fires (pol : RoutePolicy) (error : Option String) (final_conf : ℚ)
    (llm_target_folder_raw : List Char) : Prop :=
  error = none ∧ pol.allow_llm_folder_override = true ∧
    pyStrip pyIsSpace llm_target_folder_raw ≠ [] ∧
    pol.llm_folder_override_min_conf ≤ final_conf

theorem override_condition_iff (pol : RoutePolicy) (error : Option String)
    (conf : ℚ) (raw : List Char) :
    override_condition pol error conf (pyStrip pyIsSpace raw) = true ↔
      override_path_fires pol error conf raw := by
  unfold override_condition override_path_fires
  cases error with
  | none => simp [List.isEmpty_iff, and_assoc]
  | some e => simp

/-- **C1 (amended)** — `is_private` forces fallback only when the LLM
folder-override path applies (no error, override enabled, non-empty
suggested folder, confidence ≥ the override threshold); whenever that path
does not apply, routing is entirely independent of `is_private`. -/
theorem privacy_override_scoped :
    ∀ (pol : RoutePolicy) (map : SenderMapping) (error : Option String) (conf : ℚ)
      (folderRaw sender : List Char),
      (override_path_fires pol error conf folderRaw →
        decide_routing pol map error conf folderRaw true sender =
          ⟨true, pol.fallback_dir_name, pol.fallback_dir⟩) ∧
      (¬ override_path_fires pol error conf folderRaw →
        decide_routing pol map error conf folderRaw true sender =
          decide_routing pol map error conf folderRaw false sender) := by
  intro pol map error conf folderRaw sender
  constructor
  · intro hf
    have hc : override_condition pol error conf (pyStrip pyIsSpace folderRaw) = true :=
      (override_condition_iff pol error conf folderRaw).mpr hf
    unfold decide_routing
    simp [hc]
  · intro hf
    have hc : override_condition pol error conf (pyStrip pyIsSpace folderRaw) = false := by
      cases h : override_condition pol error conf (pyStrip pyIsSpace folderRaw)
      · rfl
      · exact absurd ((override_condition_iff pol error conf folderRaw).mp h) hf
    unfold decide_routing
    simp [hc]

/-- A policy with the LLM folder override enabled and threshold 0. -/
def polOverride : RoutePolicy :=
  ⟨0, true, 0, false, "/base/_Unklar".data, "_Unklar".data, "/base/Dokumente".data⟩

/-- Witness for `privacy_override_scoped` at a concrete input where the
override path applies. -/
theorem privacy_override_scoped_witness :
    decide_routing polOverride mapTelekom none 1 "Steuern".data true "X".data =
      ⟨true, polOverride.fallback_dir_name, polOverride.fallback_dir⟩ :=
  (privacy_override_scoped polOverride mapTelekom none 1 "Steuern".data "X".data).1
    ⟨rfl, rfl, by decide, by norm_num [polOverride]⟩

/-! ## main.py: per-document flow around classification (process_one) -/

/-- The classifier-derived values `process_one` reads off
`decision.final` when classification succeeds. -/
structure ClassifyVals where
  sender_canonical : List Char
  confidence : ℚ
  document_type : List Char
  filename_label : List Char
  target_folder : List Char
  is_private : Bool
  stage_used : Nat

/-- The outcome facts of `process_one` relevant to error handling and
routing. -/
structure DocOutcome where
  extraction_method : String
  pages_processed : Nat
  error : Option String
  final_conf : ℚ
  routed_to_fallback : Bool
  final_folder : List Char
  target_dir : List Char
  classify_attempted : Bool
  ocr_invoked : Bool

/-- The extraction + classification + routing flow of `process_one`
(main.py lines 79-232).  The classifier outcome (`classify_multi_stage`
composed with its collaborators) is passed as an `Except` value;
`process_one` enters its classification `try` block unconditionally — there
is no "skip classification on extraction error" guard — which
`classify_attempted` records.  On classification failure the defaults of
lines 120-135 are kept and `error = error or "LLM classify failed: ..."`
preserves a prior OCR error. -/
def process_doc (cfg : OcrConfig) (pol : RoutePolicy) (map : SenderMapping)
    (textlayer : Except String (List Char)) (ocr : Except String OcrResult)
    (classifyOutcome : Except String ClassifyVals) : DocOutcome :=
  let ex := extract_phase cfg textlayer ocr
  match classifyOutcome with
  | .ok v =>
    let error := ex.error
    let final_sender := normalize_sender v.sender_canonical
    let r := decide_routing pol map error v.confidence v.target_folder
      v.is_private final_sender
    ⟨ex.extraction_method, ex.pages_processed, error, v.confidence,
      r.routed_to_fallback, r.final_folder, r.target_dir, true, ex.ocr_invoked⟩
  | .error e =>
    let error := some (ex.error.getD ("LLM classify failed: " ++ e))
    let r := decide_routing pol map error 0 [] false []
    ⟨ex.extraction_method, ex.pages_processed, error, 0,
      r.routed_to_fallback, r.final_folder, r.target_dir, true, ex.ocr_invoked⟩

theorem decide_routing_error (pol : RoutePolicy) (map : SenderMapping) (m : String)
    (conf : ℚ) (folderRaw : List Char) (priv : Bool) (sender : List Char) :
    decide_routing pol map (some m) conf folderRaw priv sender =
      ⟨true, pol.fallback_dir_name, pol.fallback_dir⟩ := by
  unfold decide_routing override_condition
  simp

/-- **C3 (counterexample)** — on a document whose OCR step raised,
`process_one` still enters the classification block (`classify_attempted =
true`): classification is *not* skipped, contradicting the claim's "no LLM
call is made for it / classification is skipped" reading of the flow. -/
theorem ocr_error_still_classifies :
    (process_doc ⟨true, 50, 1⟩ polNoOverride mapTelekom (.ok [])
        (.error "Vision framework unavailable") (.error buildPromptTypeError)).ocr_invoked
      = true ∧
    (process_doc ⟨true, 50, 1⟩ polNoOverride mapTelekom (.ok [])
        (.error "Vision framework unavailable") (.error buildPromptTypeError)).error
      = some "OCR failed: Vision framework unavailable" ∧
    (process_doc ⟨true, 50, 1⟩ polNoOverride mapTelekom (.ok [])
        (.error "Vision framework unavailable") (.error buildPromptTypeError)).classify_attempted
      = true := ⟨rfl, rfl, rfl⟩

/-- **C3 (amended)** — if the OCR step of a document that needs OCR (with
OCR enabled) raises, then the document record carries the OCR error message
(a subsequent classification failure does not overwrite it), the document is
routed to the fallback folder — but classification is still attempted. -/
theorem ocr_error_fatal_amended :
    ∀ (cfg : OcrConfig) (pol : RoutePolicy) (map : SenderMapping)
      (tl : Except String (List Char)) (msg : String)
      (co : Except String ClassifyVals),
      cfg.use_vision = true →
      need_ocr cfg (textlayer_text tl) = true →
      (process_doc cfg pol map tl (.error msg) co).error =
          some ("OCR failed: " ++ msg) ∧
        (process_doc cfg pol map tl (.error msg) co).routed_to_fallback = true ∧
        (process_doc cfg pol map tl (.error msg) co).target_dir = pol.fallback_dir ∧
        (process_doc cfg pol map tl (.error msg) co).classify_attempted = true := by
  intro cfg pol map tl msg co hv hn
  have hex : extract_phase cfg tl (.error msg) =
      ⟨"vision_ocr", 0, textlayer_text tl, some ("OCR failed: " ++ msg), true⟩ := by
    unfold extract_phase
    simp only [hn, hv, Bool.and_self, if_true]
  cases co with
  | ok v => simp [process_doc, hex, decide_routing_error]
  | error e => simp [process_doc, hex, decide_routing_error]

/-- Witness for `ocr_error_fatal_amended` at a concrete input. -/
theorem ocr_error_fatal_amended_witness :
    (process_doc ⟨true, 50, 1⟩ polNoOverride mapTelekom (.ok []) (.error "boom")
        (.error "x")).routed_to_fallback = true :=
  (ocr_error_fatal_amended ⟨true, 50, 1⟩ polNoOverride mapTelekom (.ok []) "boom"
    (.error "x") rfl (by decide)).2.1

end PdfFiler
